import Mathlib

/-!
# Verification of the RVV TPC-H query programs

A shallow embedding, in Lean 4, of the row-level logic of the repository's
TPC-H query programs (`query1.cpp`, `query4.cpp`, `query6.cpp`, `query12.cpp`,
`rvv_query1.cpp`, `rvv_query4.cpp`, `rvv_query6.cpp`, `query9.cpp`,
`rvv_query9.cpp`, `rvv_query12.cpp`), together with theorems checking the
natural-language specification against that embedding.

Machine integers are modelled as `Nat`/`Int` with explicit two's-complement
reconstruction where the code manipulates raw 128-bit decimal payloads, and
C `double`/`float` arithmetic is modelled exactly over `ℚ` (the claims under
study concern the algebraic structure of the computations — sign handling,
elementwise agreement, permutation invariance — which are exact statements
about the arithmetic expressions the code evaluates).
-/

set_option maxRecDepth 8000

namespace RVVParquet

/-! ## DecimalCodec (query1.cpp / query6.cpp / query9.cpp `decimal128_bytes_to_double`)

The C++ helper copies the 16 raw little-endian bytes into two 64-bit words,
builds an `arrow::Decimal128(high_bits, low_bits)` and evaluates
`(double)high_bits() * 2^64 + (double)low_bits()`, then divides by
`10^scale`.  In Arrow, `Decimal128::high_bits()` is a *signed* `int64_t`
and `Decimal128::low_bits()` an *unsigned* `uint64_t`.  We model the raw
16-byte payload as a `Nat < 2^128` (its little-endian value), the low word
as `raw % 2^64` (unsigned) and the high word as the signed reading of
`raw / 2^64`. -/

/-- Unsigned 64-bit word: the value of the low 8 bytes of the payload
(`memcpy(&low_bits, raw_value_ptr, 8)` followed by `Decimal128::low_bits()`,
which is `uint64_t`). -/
def uint64OfBits (n : Nat) : Nat := n % 2 ^ 64

/-- Signed 64-bit word: the value of the high 8 bytes of the payload as read
back through `Decimal128::high_bits()`, which is a signed `int64_t`. -/
def int64OfBits (n : Nat) : Int :=
  if n % 2 ^ 64 < 2 ^ 63 then ((n % 2 ^ 64 : Nat) : Int)
  else ((n % 2 ^ 64 : Nat) : Int) - 2 ^ 64

/-- The signed 128-bit integer the C++ code reconstructs before scaling:
`(double)decimal_value.high_bits() * 2^64 + (double)decimal_value.low_bits()`
with a signed high word and an unsigned low word. -/
def decimal128ReconstructedInt (raw : Nat) : Int :=
  int64OfBits (raw / 2 ^ 64) * 2 ^ 64 + (uint64OfBits raw : Int)

/-- The helper `decimal128_bytes_to_double(raw_value_ptr, scale)` from `query1.cpp`
lines 62-79 / `query6.cpp` lines 37-54, over exact arithmetic: the
reconstructed signed 128-bit integer divided by `10^scale`. -/
def decimal128_bytes_to_double (raw : Nat) (scale : Nat) : ℚ :=
  (decimal128ReconstructedInt raw : ℚ) / 10 ^ scale

/-- Two's-complement encoding of a signed 128-bit value into its raw
16-byte payload (the representation a Parquet `decimal128` column stores). -/
def encodeDecimal128 (v : Int) : Nat := (v % 2 ^ 128).toNat

/-- The mathematical value of a raw two's-complement 128-bit payload
(the reference signed reading mandated by the spec's data model). -/
def twosComplement128 (raw : Nat) : Int :=
  if raw % 2 ^ 128 < 2 ^ 127 then ((raw % 2 ^ 128 : Nat) : Int)
  else ((raw % 2 ^ 128 : Nat) : Int) - 2 ^ 128

theorem encodeDecimal128_lt (v : Int) : encodeDecimal128 v < 2 ^ 128 := by
  unfold encodeDecimal128
  have h : v % 2 ^ 128 < (2 ^ 128 : Int) := Int.emod_lt_of_pos v (by norm_num)
  have h0 : (0 : Int) ≤ v % 2 ^ 128 := Int.emod_nonneg v (by norm_num)
  omega

/-- The signed reconstruction performed by `decimal128_bytes_to_double`
agrees with the two's-complement reading of the raw payload. -/
theorem decimal128ReconstructedInt_eq (raw : Nat) (h : raw < 2 ^ 128) :
    decimal128ReconstructedInt raw = twosComplement128 raw := by
  unfold decimal128ReconstructedInt twosComplement128 int64OfBits uint64OfBits
  have hm : raw % 2 ^ 128 = raw := Nat.mod_eq_of_lt h
  have hdiv : raw / 2 ^ 64 < 2 ^ 64 := by
    have : raw < 2 ^ 64 * 2 ^ 64 := by norm_num at h ⊢; omega
    exact Nat.div_lt_of_lt_mul this
  have hdm : raw / 2 ^ 64 % 2 ^ 64 = raw / 2 ^ 64 := Nat.mod_eq_of_lt hdiv
  rw [hm, hdm]
  have hsplit : 2 ^ 64 * (raw / 2 ^ 64) + raw % 2 ^ 64 = raw := Nat.div_add_mod raw (2 ^ 64)
  have hlow : raw % 2 ^ 64 < 2 ^ 64 := Nat.mod_lt raw (by norm_num)
  -- relate the branch conditions: high word ≥ 2^63 iff raw ≥ 2^127
  by_cases hb : raw / 2 ^ 64 < 2 ^ 63
  · have hraw : raw < 2 ^ 127 := by
      norm_num at hb hsplit hlow ⊢; omega
    rw [if_pos hb, if_pos hraw]
    push_cast
    norm_num at hsplit ⊢
    omega
  · have hraw : ¬ raw < 2 ^ 127 := by
      norm_num at hb hsplit ⊢; omega
    rw [if_neg hb, if_neg hraw]
    push_cast
    norm_num at hsplit ⊢
    omega

theorem twosComplement128_encode (v : Int) (h1 : -(2 ^ 127) ≤ v) (h2 : v < 2 ^ 127) :
    twosComplement128 (encodeDecimal128 v) = v := by
  unfold twosComplement128 encodeDecimal128
  have hmod : v % 2 ^ 128 = v ∨ v % 2 ^ 128 = v + 2 ^ 128 := by omega
  have h0 : (0 : Int) ≤ v % 2 ^ 128 := Int.emod_nonneg v (by norm_num)
  have hc : (((v % 2 ^ 128).toNat : Int)) = v % 2 ^ 128 := Int.toNat_of_nonneg h0
  have hlt : (v % 2 ^ 128).toNat < 2 ^ 128 := by
    have := Int.emod_lt_of_pos v (show (0:Int) < 2 ^ 128 by norm_num)
    omega
  rw [Nat.mod_eq_of_lt hlt]
  rcases hmod with hm | hm
  · have : (v % 2 ^ 128).toNat < 2 ^ 127 := by omega
    rw [if_pos this]; omega
  · have : ¬ (v % 2 ^ 128).toNat < 2 ^ 127 := by omega
    rw [if_neg this]; omega

/-- C1: For every representable decimal value (two's-complement 128-bit raw
payload plus scale), `decimal128_bytes_to_double` returns the signed value
divided by `10^scale`; in particular negative values decode to the correct
negative rational (no power-of-two offset, no large positive magnitude), so
decode ∘ encode is the identity on representable values. -/
theorem decimal128_roundtrip (v : Int) (scale : Nat)
    (h1 : -(2 ^ 127) ≤ v) (h2 : v < 2 ^ 127) :
    decimal128_bytes_to_double (encodeDecimal128 v) scale = (v : ℚ) / 10 ^ scale ∧
    (v < 0 → decimal128_bytes_to_double (encodeDecimal128 v) scale < 0) := by
  have key : decimal128ReconstructedInt (encodeDecimal128 v) = v := by
    rw [decimal128ReconstructedInt_eq _ (encodeDecimal128_lt v),
      twosComplement128_encode v h1 h2]
  constructor
  · unfold decimal128_bytes_to_double
    rw [key]
  · intro hneg
    unfold decimal128_bytes_to_double
    rw [key]
    apply div_neg_of_neg_of_pos
    · exact_mod_cast hneg
    · positivity

theorem decimal128_roundtrip_witness :
    (-(2 ^ 127) ≤ (-1234567 : Int)) ∧ ((-1234567 : Int) < 2 ^ 127) ∧
    (decimal128_bytes_to_double (encodeDecimal128 (-1234567)) 2 =
      ((-1234567 : Int) : ℚ) / 10 ^ 2 ∧
    ((-1234567 : Int) < 0 →
      decimal128_bytes_to_double (encodeDecimal128 (-1234567)) 2 < 0)) :=
  ⟨by norm_num, by norm_num,
    decimal128_roundtrip (-1234567) 2 (by norm_num) (by norm_num)⟩

/-! ## VectorBatchKernel (rvv_query1.cpp / rvv_query4.cpp)

The RVV kernels walk the arrays in stripes: `vl = __riscv_vsetvl_e32m8(n - i)`
selects `min(VLMAX, n - i)` elements (the hardware guarantees `VLMAX ≥ 1`,
modelled below by `max 1`), processes them elementwise, and advances `i` by
`vl`.  We model the per-stripe elementwise arithmetic exactly over `ℚ`. -/

/-- The scalar reference computation `disc_price = extendedprice * (1.0 - discount)`
from `query1.cpp` line 235. -/
def disc_price (extendedprice discount : ℚ) : ℚ := extendedprice * (1 - discount)

/-- The kernel `compute_disc_price_rvv` from `rvv_query1.cpp` lines 328-349: stripes of
`vl` elements; each stripe loads `price` and `discount`, computes
`v_price * (1 - v_discount)` elementwise and stores it at the same offsets. -/
def compute_disc_price_rvv (vlmax : Nat) (price discount : List ℚ) : List ℚ :=
  if h : price = [] then []
  else
    List.zipWith (fun p d => p * (1 - d))
        (price.take (max 1 (min vlmax price.length)))
        (discount.take (max 1 (min vlmax price.length))) ++
      compute_disc_price_rvv vlmax
        (price.drop (max 1 (min vlmax price.length)))
        (discount.drop (max 1 (min vlmax price.length)))
termination_by price.length
decreasing_by
  have : price.length ≠ 0 := fun hl => h (List.length_eq_zero.mp hl)
  simp only [List.length_drop]
  omega

theorem compute_disc_price_rvv_eq_zipWith (vlmax : Nat) (price discount : List ℚ) :
    compute_disc_price_rvv vlmax price discount = List.zipWith disc_price price discount := by
  have main : ∀ n (price discount : List ℚ), price.length ≤ n →
      compute_disc_price_rvv vlmax price discount =
        List.zipWith disc_price price discount := by
    intro n
    induction n with
    | zero =>
      intro price discount h
      have hp : price = [] := List.length_eq_zero.mp (Nat.le_zero.mp h)
      subst hp
      rw [compute_disc_price_rvv]
      simp
    | succ n ih =>
      intro price discount h
      rw [compute_disc_price_rvv]
      by_cases hp : price = []
      · subst hp; simp
      · rw [dif_neg hp]
        have hlen : price.length ≠ 0 := fun hl => hp (List.length_eq_zero.mp hl)
        have hdrop : (price.drop (max 1 (min vlmax price.length))).length ≤ n := by
          simp only [List.length_drop]
          omega
        rw [ih _ _ hdrop]
        show List.zipWith disc_price _ _ ++ _ = _
        rw [← List.take_zipWith, ← List.drop_zipWith, List.take_append_drop]
  exact main price.length price discount le_rfl

/-- One stripe of the bit-setting loop inside `check_late_delivery_rvv`
(`rvv_query4.cpp` lines 38-46): for each `j < vl`, with `idx = i + j`, set
`results[idx / 8] |= 1 << (idx % 8)` — i.e. bit `idx` of the overall mask —
exactly when `commitdates[idx] < receiptdates[idx]`. -/
def lateStripe (commit receipt : List Int) (i vl : Nat) (mask : Nat) : Nat :=
  (List.range vl).foldl
    (fun m j =>
      if commit.getD (i + j) 0 < receipt.getD (i + j) 0 then m ||| 2 ^ (i + j) else m)
    mask

/-- The outer stripe loop of `check_late_delivery_rvv` (`rvv_query4.cpp`
lines 30-47): advance `i` by `vl = max 1 (min vlmax (length - i))` per stripe. -/
def lateLoop (vlmax : Nat) (commit receipt : List Int) (i : Nat) (mask : Nat) : Nat :=
  if commit.length ≤ i then mask
  else
    lateLoop vlmax commit receipt (i + max 1 (min vlmax (commit.length - i)))
      (lateStripe commit receipt i (max 1 (min vlmax (commit.length - i))) mask)
termination_by commit.length - i
decreasing_by omega

/-- The kernel `check_late_delivery_rvv` from `rvv_query4.cpp` lines 24-48; the caller
zero-initialises the mask (`std::vector<uint8_t> late_delivery_mask(num_bytes, 0)`,
line 140). -/
def check_late_delivery_rvv (vlmax : Nat) (commit receipt : List Int) : Nat :=
  lateLoop vlmax commit receipt 0 0

theorem lateStripe_testBit (commit receipt : List Int) (i : Nat) :
    ∀ (vl : Nat) (mask k : Nat),
      (lateStripe commit receipt i vl mask).testBit k =
        (mask.testBit k ||
          (decide (i ≤ k) && decide (k < i + vl) &&
            decide (commit.getD k 0 < receipt.getD k 0))) := by
  intro vl
  induction vl with
  | zero =>
    intro mask k
    simp [lateStripe]
  | succ vl ih =>
    intro mask k
    unfold lateStripe at ih ⊢
    rw [List.range_succ, List.foldl_append]
    simp only [List.foldl_cons, List.foldl_nil]
    by_cases hc : commit.getD (i + vl) 0 < receipt.getD (i + vl) 0
    · rw [if_pos hc, Nat.testBit_lor, ih]
      by_cases hk : k = i + vl
      · subst hk
        rw [Nat.testBit_two_pow_self, Bool.or_true,
          decide_eq_true (Nat.le_add_right i vl),
          decide_eq_true (show i + vl < i + (vl + 1) by omega),
          decide_eq_true hc]
        simp
      · rw [Nat.testBit_two_pow_of_ne (fun h => hk h.symm), Bool.or_false]
        rcases Nat.lt_trichotomy k (i + vl) with h | h | h
        · rw [decide_eq_true h, decide_eq_true (show k < i + (vl + 1) by omega)]
        · exact absurd h hk
        · rw [decide_eq_false (show ¬ k < i + vl by omega),
            decide_eq_false (show ¬ k < i + (vl + 1) by omega)]
    · rw [if_neg hc, ih]
      rcases Nat.lt_trichotomy k (i + vl) with h | h | h
      · rw [decide_eq_true h, decide_eq_true (show k < i + (vl + 1) by omega)]
      · subst h
        rw [decide_eq_false hc]
        simp
      · rw [decide_eq_false (show ¬ k < i + vl by omega),
          decide_eq_false (show ¬ k < i + (vl + 1) by omega)]

theorem stripeCombine (mb c : Bool) (i vl len k : Nat) (hbound : i + vl ≤ len) :
    ((mb || (decide (i ≤ k) && decide (k < i + vl) && c)) ||
        (decide (i + vl ≤ k) && decide (k < len) && c)) =
      (mb || (decide (i ≤ k) && decide (k < len) && c)) := by
  cases mb <;> cases c <;>
    by_cases h1 : i ≤ k <;> by_cases h2 : k < i + vl <;>
    by_cases h3 : k < len <;> by_cases h4 : i + vl ≤ k <;>
    simp [h1, h2, h3, h4] <;> omega

theorem lateLoop_testBit (vlmax : Nat) (commit receipt : List Int) :
    ∀ (fuel i mask k : Nat), commit.length - i ≤ fuel →
      (lateLoop vlmax commit receipt i mask).testBit k =
        (mask.testBit k ||
          (decide (i ≤ k) && decide (k < commit.length) &&
            decide (commit.getD k 0 < receipt.getD k 0))) := by
  intro fuel
  induction fuel with
  | zero =>
    intro i mask k h
    have hle : commit.length ≤ i := by omega
    rw [lateLoop, if_pos hle]
    rcases Nat.lt_or_ge k commit.length with hk | hk
    · have h2 : ¬ i ≤ k := by omega
      simp [h2]
    · have h2 : ¬ k < commit.length := by omega
      simp [h2]
  | succ fuel ih =>
    intro i mask k h
    rw [lateLoop]
    by_cases hle : commit.length ≤ i
    · rw [if_pos hle]
      rcases Nat.lt_or_ge k commit.length with hk | hk
      · have h2 : ¬ i ≤ k := by omega
        simp [h2]
      · have h2 : ¬ k < commit.length := by omega
        simp [h2]
    · rw [if_neg hle]
      have hfuel :
          commit.length - (i + max 1 (min vlmax (commit.length - i))) ≤ fuel := by
        omega
      rw [ih _ _ k hfuel, lateStripe_testBit]
      have hbound : i + max 1 (min vlmax (commit.length - i)) ≤ commit.length := by
        omega
      exact stripeCombine (mask.testBit k) _ i _ commit.length k hbound

/-- C3: For every pair of equal-length input arrays, the RVV batch kernels
agree with the scalar reference computation on every element, including tail
elements when the length is not a multiple of the hardware vector length:
`compute_disc_price_rvv` equals the elementwise `extendedprice * (1 - discount)`
(exactly, hence within relative tolerance 1e-5), and `check_late_delivery_rvv`
sets bit `i` of the mask exactly when `commitdates[i] < receiptdates[i]`. -/
theorem rvv_kernels_agree (vlmax : Nat) (price discount : List ℚ)
    (commit receipt : List Int)
    (hlen : price.length = discount.length)
    (hlen2 : commit.length = receipt.length) :
    compute_disc_price_rvv vlmax price discount = List.zipWith disc_price price discount ∧
    ∀ i, i < commit.length →
      (check_late_delivery_rvv vlmax commit receipt).testBit i =
        decide (commit.getD i 0 < receipt.getD i 0) := by
  refine ⟨compute_disc_price_rvv_eq_zipWith vlmax price discount, ?_⟩
  intro i hi
  unfold check_late_delivery_rvv
  rw [lateLoop_testBit vlmax commit receipt commit.length 0 0 i (by omega)]
  simp [Nat.zero_testBit, Nat.zero_le, hi]

theorem rvv_kernels_agree_witness :
    (([10, 20, 30, 40, 50, 60] : List ℚ).length =
      ([1/10, 2/10, 3/10, 4/10, 5/10, 6/10] : List ℚ).length) ∧
    (([5, 9, 7, 4, 11] : List Int).length = ([6, 8, 7, 9, 2] : List Int).length) ∧
    (compute_disc_price_rvv 4 [10, 20, 30, 40, 50, 60] [1/10, 2/10, 3/10, 4/10, 5/10, 6/10] =
      List.zipWith disc_price [10, 20, 30, 40, 50, 60] [1/10, 2/10, 3/10, 4/10, 5/10, 6/10]) ∧
    ((check_late_delivery_rvv 4 [5, 9, 7, 4, 11] [6, 8, 7, 9, 2]).testBit 3 =
      decide (([5, 9, 7, 4, 11] : List Int).getD 3 0 < ([6, 8, 7, 9, 2] : List Int).getD 3 0)) :=
  ⟨by decide, by decide,
    (rvv_kernels_agree 4 [10, 20, 30, 40, 50, 60] [1/10, 2/10, 3/10, 4/10, 5/10, 6/10]
      [5, 9, 7, 4, 11] [6, 8, 7, 9, 2] (by decide) (by decide)).1,
    (rvv_kernels_agree 4 [10, 20, 30, 40, 50, 60] [1/10, 2/10, 3/10, 4/10, 5/10, 6/10]
      [5, 9, 7, 4, 11] [6, 8, 7, 9, 2] (by decide) (by decide)).2 3 (by decide)⟩

/-! ## NullableColumn cells and predicate null-safety (query12.cpp vs rvv_query12.cpp)

An Arrow column slot carries a validity bit plus a raw buffer value; a null
slot (`valid = false`) still holds a (garbage) value in the data buffer, and
that buffer is exactly what `raw_values()` exposes to the RVV kernels. -/

/-- One slot of a nullable column: validity bit plus raw buffer value. -/
structure Cell (α : Type) where
  valid : Bool
  raw : α
deriving DecidableEq

/-- One lineitem row as consumed by TPC-H Query 12 (`l_orderkey`,
`l_shipmode`, `l_shipdate`, `l_commitdate`, `l_receiptdate`). -/
structure LineitemRow where
  orderkey : Cell Int
  shipmode : Cell String
  shipdate : Cell Int
  commitdate : Cell Int
  receiptdate : Cell Int
deriving DecidableEq

/-- Lookup into the `order_priorities` map built from the orders table
(`std::map<int64_t, std::string>::find`). -/
def orderPriorityLookup (prios : List (Int × String)) (k : Int) : Option String :=
  List.lookup k prios

/-- The per-element date condition evaluated by `check_shipping_conditions_rvv`
(`rvv_query12.cpp`, inner loop: `commitdate[idx] < receiptdate[idx] &&
shipdate[idx] < commitdate[idx] && receiptdate[idx] >= start_date &&
receiptdate[idx] < end_date`), computed over the raw date buffers. -/
def shippingConditionsMet (startDate endDate ship commit receipt : Int) : Bool :=
  decide (commit < receipt) && decide (ship < commit) &&
    decide (startDate ≤ receipt) && decide (receipt < endDate)

/-- Row qualification in the scalar Query 12 (`query12.cpp` lines 165-218):
any null among the five referenced columns skips the row (`continue`), then
ship-mode membership, then the four date comparisons, then the priority
lookup (absent priority skips the row). -/
def scalarQ12Qualifies (prios : List (Int × String)) (startDate endDate : Int)
    (r : LineitemRow) : Bool :=
  if !r.orderkey.valid || !r.shipmode.valid || !r.shipdate.valid ||
      !r.commitdate.valid || !r.receiptdate.valid then false
  else if !(r.shipmode.raw == "MAIL" || r.shipmode.raw == "SHIP") then false
  else if shippingConditionsMet startDate endDate r.shipdate.raw r.commitdate.raw
      r.receiptdate.raw then
    (orderPriorityLookup prios r.orderkey.raw).isSome
  else false

/-- Row qualification in the RVV Query 12 (`rvv_query12.cpp` lines 938-977):
the qualification bit comes from `check_shipping_conditions_rvv` over the raw
date buffers (no validity check on the three date columns), after which only
`l_orderkey` and `l_shipmode` are null-checked. -/
def rvvQ12Qualifies (prios : List (Int × String)) (startDate endDate : Int)
    (r : LineitemRow) : Bool :=
  if !(shippingConditionsMet startDate endDate r.shipdate.raw r.commitdate.raw
      r.receiptdate.raw) then false
  else if !r.orderkey.valid || !r.shipmode.valid then false
  else if !(r.shipmode.raw == "MAIL" || r.shipmode.raw == "SHIP") then false
  else (orderPriorityLookup prios r.orderkey.raw).isSome

/-- A lineitem row whose `l_receiptdate` is null; its raw date buffer slot
holds day 8900 (a value inside 1994), which is what `raw_values()` exposes. -/
def nullReceiptRow : LineitemRow :=
  { orderkey := ⟨true, 1⟩
    shipmode := ⟨true, "MAIL"⟩
    shipdate := ⟨true, 8700⟩
    commitdate := ⟨true, 8800⟩
    receiptdate := ⟨false, 8900⟩ }

/-- C2 (failing input): the RVV Query 12 variant counts a row whose
`l_receiptdate` is null — the date mask is computed from the raw buffers and
the subsequent checks only cover `l_orderkey` and `l_shipmode` — while the
scalar Query 12 excludes the same row.  Day numbers 8766 and 9131 are
1994-01-01 and 1995-01-01. -/
theorem rvv_q12_counts_null_date_row :
    rvvQ12Qualifies [(1, "1-URGENT")] 8766 9131 nullReceiptRow = true ∧
    scalarQ12Qualifies [(1, "1-URGENT")] 8766 9131 nullReceiptRow = false ∧
    nullReceiptRow.receiptdate.valid = false := by
  decide

/-! ## HashJoinIndex inner-join exclusivity (query12.cpp / query4.cpp) -/

/-- Inner join of a stream of probe-side keys against the build-side
key → value list, as in `query12.cpp` lines 191-199: each probe row looks up
its key, is dropped (`continue`) when the key is absent, and otherwise yields
exactly one joined row. -/
def joinedRows (build : List (Int × String)) (probe : List Int) :
    List (Int × String) :=
  probe.filterMap (fun k => (orderPriorityLookup build k).map (fun v => (k, v)))

/-- C4: a probe-side row whose key has no build-side match contributes no
joined row (inner-join semantics, silently excluded, wherever it sits in the
probe stream); concretely, with build keys `{1, 2}` and probe keys
`{1, 1, 3}`, exactly two joined rows are produced for key 1 and none for
key 3. -/
theorem inner_join_excludes_unmatched (build : List (Int × String))
    (probe₁ probe₂ : List Int) (k : Int)
    (h : orderPriorityLookup build k = none) :
    joinedRows build (probe₁ ++ k :: probe₂) = joinedRows build (probe₁ ++ probe₂) ∧
    joinedRows [(1, "A"), (2, "B")] [1, 1, 3] = [(1, "A"), (1, "A")] ∧
    (joinedRows [(1, "A"), (2, "B")] [1, 1, 3]).filter (fun r => r.1 == 3) = [] := by
  refine ⟨?_, by decide, by decide⟩
  unfold joinedRows
  rw [List.filterMap_append, List.filterMap_append, List.filterMap_cons, h]
  simp

theorem inner_join_excludes_unmatched_witness :
    orderPriorityLookup [(1, "A"), (2, "B")] 5 = none ∧
    joinedRows [(1, "A"), (2, "B")] ([1] ++ 5 :: [3]) =
      joinedRows [(1, "A"), (2, "B")] ([1] ++ [3]) :=
  ⟨by decide,
    (inner_join_excludes_unmatched [(1, "A"), (2, "B")] [1] [3] 5 (by decide)).1⟩

/-! ## Query 6 scan (query6.cpp main, lines 159-198) -/

/-- One lineitem row as consumed by TPC-H Query 6: `l_shipdate` (date32) and
the raw 128-bit payloads of `l_quantity`, `l_extendedprice`, `l_discount`. -/
structure Q6Row where
  shipdate : Cell Int
  quantity : Cell Nat
  extendedprice : Cell Nat
  discount : Cell Nat
deriving DecidableEq

/-- One iteration of the Query 6 row loop (`query6.cpp` lines 159-198): skip
the row when any referenced column is null; otherwise decode the decimals and
test `shipdate >= start_date && shipdate < end_date && discount >= 0.05 &&
discount <= 0.07 && quantity < 24`; a qualifying row adds
`extendedprice * discount` to the revenue and bumps the qualified counter. -/
def q6Step (startDate endDate : Int) (qScale pScale dScale : Nat)
    (acc : ℚ × Nat) (r : Q6Row) : ℚ × Nat :=
  if !r.shipdate.valid || !r.quantity.valid || !r.extendedprice.valid ||
      !r.discount.valid then acc
  else
    if startDate ≤ r.shipdate.raw ∧ r.shipdate.raw < endDate ∧
        (5 / 100 : ℚ) ≤ decimal128_bytes_to_double r.discount.raw dScale ∧
        decimal128_bytes_to_double r.discount.raw dScale ≤ 7 / 100 ∧
        decimal128_bytes_to_double r.quantity.raw qScale < 24 then
      (acc.1 + decimal128_bytes_to_double r.extendedprice.raw pScale *
          decimal128_bytes_to_double r.discount.raw dScale,
        acc.2 + 1)
    else acc

/-- The Query 6 scan: fold the row loop over the table, starting from
`total_revenue = 0.0` and `rows_qualified = 0`. -/
def query6Run (startDate endDate : Int) (qScale pScale dScale : Nat)
    (rows : List Q6Row) : ℚ × Nat :=
  rows.foldl (q6Step startDate endDate qScale pScale dScale) (0, 0)

/-- C5 (Scenario A): a single row with `shipdate = 1994-03-01` (day 8825),
`discount = 0.06`, `quantity = 10`, `price = 1000` (raw decimal payloads at
scale 2) against the predicate `shipdate in [1994-01-01, 1995-01-01) AND
discount in [0.05, 0.07] AND quantity < 24` qualifies exactly once and
accumulates revenue `1000 * 0.06 = 60`. -/
theorem query6_scenarioA :
    query6Run 8766 9131 2 2 2
      [{ shipdate := ⟨true, 8825⟩, quantity := ⟨true, 1000⟩,
         extendedprice := ⟨true, 100000⟩, discount := ⟨true, 6⟩ }] = (60, 1) := by
  have hdec : ∀ raw : Nat, raw < 2 ^ 64 →
      decimal128_bytes_to_double raw 2 = (raw : ℚ) / 100 := by
    intro raw hraw
    unfold decimal128_bytes_to_double decimal128ReconstructedInt int64OfBits uint64OfBits
    rw [Nat.div_eq_of_lt hraw, Nat.mod_eq_of_lt hraw]
    norm_num
  unfold query6Run
  simp only [List.foldl_cons, List.foldl_nil]
  unfold q6Step
  rw [hdec 6 (by norm_num), hdec 1000 (by norm_num), hdec 100000 (by norm_num)]
  norm_num

/-! ## GroupAggregator (query1.cpp lines 26-48 and 199-257)

Rows reaching the aggregation stage are the filter-accepted rows with their
decimal columns already decoded; the update `groups[key]` creates a
default-initialised entry on first access (`std::map::operator[]`) and adds
the row's contributions. -/

/-- One decoded, filter-accepted lineitem row for Query 1. -/
structure Q1Row where
  returnflag : String
  linestatus : String
  quantity : ℚ
  extendedprice : ℚ
  discount : ℚ
  tax : ℚ
deriving DecidableEq

/-- The struct `AggregateValues` from `query1.cpp` lines 38-48 (all fields
zero-initialised; the `avg_*` fields stay 0 until the finalize pass). -/
structure AggregateValues where
  sum_qty : ℚ
  sum_base_price : ℚ
  sum_disc_price : ℚ
  sum_charge : ℚ
  avg_qty : ℚ
  avg_price : ℚ
  avg_disc : ℚ
  sum_disc : ℚ
  count_order : Nat
deriving DecidableEq

def AggregateValues.init : AggregateValues :=
  ⟨0, 0, 0, 0, 0, 0, 0, 0, 0⟩

/-- The per-row aggregate update from `query1.cpp` lines 234-245:
`disc_price = extendedprice * (1 - discount)`, `charge = disc_price * (1 + tax)`,
then `+=` into the five sums and `count_order++`. -/
def updateAgg (agg : AggregateValues) (r : Q1Row) : AggregateValues :=
  { agg with
    sum_qty := agg.sum_qty + r.quantity
    sum_base_price := agg.sum_base_price + r.extendedprice
    sum_disc_price := agg.sum_disc_price + disc_price r.extendedprice r.discount
    sum_charge := agg.sum_charge + disc_price r.extendedprice r.discount * (1 + r.tax)
    sum_disc := agg.sum_disc + r.discount
    count_order := agg.count_order + 1 }

/-- One row of the grouping loop: `groups[{returnflag, linestatus}]` is
updated, every other group is untouched. -/
def q1Step (g : String × String → AggregateValues) (r : Q1Row) :
    String × String → AggregateValues :=
  fun key => if key = (r.returnflag, r.linestatus) then updateAgg (g key) r else g key

/-- Aggregation over a stream of accepted rows. -/
def q1Groups (rows : List Q1Row) : String × String → AggregateValues :=
  rows.foldl q1Step (fun _ => AggregateValues.init)

/-- Aggregation as the source performs it: an outer loop over chunks and an
inner loop over each chunk's rows (`query1.cpp` lines 141-247). -/
def q1GroupsChunked (chunks : List (List Q1Row)) : String × String → AggregateValues :=
  chunks.foldl (fun g c => c.foldl q1Step g) (fun _ => AggregateValues.init)

/-- The finalize pass from `query1.cpp` lines 250-257: averages are computed
once, after all rows have been applied, guarded by `count_order > 0`. -/
def finalizeAgg (a : AggregateValues) : AggregateValues :=
  if 0 < a.count_order then
    { a with
      avg_qty := a.sum_qty / a.count_order
      avg_price := a.sum_base_price / a.count_order
      avg_disc := a.sum_disc / a.count_order }
  else a

theorem q1Step_comm (g : String × String → AggregateValues) (r₁ r₂ : Q1Row) :
    q1Step (q1Step g r₁) r₂ = q1Step (q1Step g r₂) r₁ := by
  funext key
  unfold q1Step
  by_cases h1 : key = (r₁.returnflag, r₁.linestatus) <;>
    by_cases h2 : key = (r₂.returnflag, r₂.linestatus)
  · simp only [if_pos h1, if_pos h2]
    unfold updateAgg
    simp only [AggregateValues.mk.injEq]
    refine ⟨?_, ?_, ?_, ?_, ?_, ?_, ?_, ?_, ?_⟩ <;> first | trivial | ring
  · simp only [if_pos h1, if_neg h2]
  · simp only [if_neg h1, if_pos h2]
  · simp only [if_neg h1, if_neg h2]

theorem q1GroupsChunked_eq (chunks : List (List Q1Row)) :
    q1GroupsChunked chunks = q1Groups chunks.flatten := by
  unfold q1GroupsChunked q1Groups
  rw [List.foldl_flatten]

/-- C6: the finalized per-group aggregates are invariant under permuting the
row processing order, and under splitting one chunk into two at any point:
the update is commutative and associative over rows, so results depend only
on the multiset of contributing rows (exactly, over the embedded arithmetic).
-/
theorem aggregation_order_invariant (rows₁ rows₂ : List Q1Row)
    (chunksPre chunksPost : List (List Q1Row)) (c : List Q1Row) (k : Nat)
    (hperm : rows₁.Perm rows₂) :
    (∀ key, q1Groups rows₁ key = q1Groups rows₂ key ∧
      finalizeAgg (q1Groups rows₁ key) = finalizeAgg (q1Groups rows₂ key)) ∧
    (∀ key, q1GroupsChunked (chunksPre ++ c :: chunksPost) key =
      q1GroupsChunked (chunksPre ++ c.take k :: c.drop k :: chunksPost) key) := by
  have hmain : q1Groups rows₁ = q1Groups rows₂ := by
    unfold q1Groups
    exact hperm.foldl_eq' (fun x _ y _ z => q1Step_comm z x y) _
  constructor
  · intro key
    exact ⟨congrFun hmain key, congrArg finalizeAgg (congrFun hmain key)⟩
  · intro key
    rw [q1GroupsChunked_eq, q1GroupsChunked_eq]
    have hflat : (chunksPre ++ c :: chunksPost).flatten =
        (chunksPre ++ c.take k :: c.drop k :: chunksPost).flatten := by
      simp only [List.flatten_append, List.flatten_cons]
      rw [← List.append_assoc (List.take k c), List.take_append_drop]
    rw [hflat]

/-- Two concrete accepted rows used to witness the permutation statement. -/
def q1RowA : Q1Row := ⟨"A", "F", 1, 10, 0, 0⟩

def q1RowB : Q1Row := ⟨"A", "F", 2, 20, 0, 0⟩

theorem aggregation_order_invariant_witness :
    q1Groups [q1RowA, q1RowB] ("A", "F") = q1Groups [q1RowB, q1RowA] ("A", "F") :=
  ((aggregation_order_invariant [q1RowA, q1RowB] [q1RowB, q1RowA] [] [] [] 0
      (List.Perm.swap q1RowB q1RowA [])).1 ("A", "F")).1

/-! ## Accumulator updates (query9.cpp / rvv_query9.cpp `profit_by_nation_year`)

`profit_by_nation_year[key] += amount` with
`amount = extendedprice * (1 - discount) - supplycost * quantity`. -/

/-- The Query 9 per-row contribution (`query9.cpp` line 492):
`amount = l_extendedprice * (1 - l_discount) - ps_supplycost * l_quantity`. -/
def profitAmount (extendedprice discount supplycost quantity : ℚ) : ℚ :=
  extendedprice * (1 - discount) - supplycost * quantity

/-- The update `profit_by_nation_year[key] += amount` (`query9.cpp` line 496): the
named accumulator of `key` is increased by `amount`, all others untouched;
a missing key starts from the default 0.0. -/
def profitUpdate (m : String × Int → ℚ) (key : String × Int) (amount : ℚ) :
    String × Int → ℚ :=
  fun k => if k = key then m k + amount else m k

/-- The empty accumulator map (`std::map` default-initialises doubles to 0). -/
def profitEmpty : String × Int → ℚ := fun _ => 0

/-- C7 (counterexample): the sum accumulator *does* decrease across updates.
After the contribution of a row with `extendedprice = 100, discount = 0,
supplycost = 0, quantity = 1` (amount 100), a second row with
`extendedprice = 10, discount = 0, supplycost = 100, quantity = 1`
(amount −90) drops the `("FRANCE", 1995)` accumulator from 100 to 10, so
"each named accumulator value never decreases across updates" is false. -/
theorem accumulator_decreases_on_negative_contribution :
    profitUpdate (profitUpdate profitEmpty ("FRANCE", 1995) (profitAmount 100 0 0 1))
        ("FRANCE", 1995) (profitAmount 10 0 100 1) ("FRANCE", 1995) <
      profitUpdate profitEmpty ("FRANCE", 1995) (profitAmount 100 0 0 1)
        ("FRANCE", 1995) := by
  simp only [profitUpdate, profitEmpty, profitAmount, if_pos]
  norm_num

/-- C7 (amended): every accumulator update is a pure addition of the row's
contribution, leaving all other groups untouched; consequently an accumulator
never decreases whenever the contribution is nonnegative — in particular the
count accumulator `count_order`, whose contribution is always 1, never
decreases — and finalization (a separate pass after the whole update fold)
never modifies the sums. -/
theorem accumulator_update_is_addition (m : String × Int → ℚ) (key : String × Int)
    (amount : ℚ) (a : AggregateValues) (r : Q1Row) :
    profitUpdate m key amount key = m key + amount ∧
    (∀ k, k ≠ key → profitUpdate m key amount k = m k) ∧
    (0 ≤ amount → ∀ k, m k ≤ profitUpdate m key amount k) ∧
    a.count_order ≤ (updateAgg a r).count_order ∧
    (finalizeAgg a).sum_qty = a.sum_qty ∧
    (finalizeAgg a).count_order = a.count_order := by
  refine ⟨by simp [profitUpdate], fun k hk => by simp [profitUpdate, hk], ?_, ?_, ?_, ?_⟩
  · intro ha k
    unfold profitUpdate
    by_cases hk : k = key
    · simp only [hk, if_pos]
      linarith
    · simp [hk]
  · simp [updateAgg]
  · unfold finalizeAgg
    by_cases h : 0 < a.count_order <;> simp [h]
  · unfold finalizeAgg
    by_cases h : 0 < a.count_order <;> simp [h]

theorem accumulator_update_is_addition_witness :
    ((0 : ℚ) ≤ 5) ∧
    (profitEmpty ("FRANCE", 1995) ≤
      profitUpdate profitEmpty ("FRANCE", 1995) 5 ("FRANCE", 1995)) :=
  ⟨by norm_num,
    (accumulator_update_is_addition profitEmpty ("FRANCE", 1995) 5
        AggregateValues.init ⟨"A", "F", 0, 0, 0, 0⟩).2.2.1
      (by norm_num) ("FRANCE", 1995)⟩

/-! ## ResultProjector ordering (query9.cpp `Query9Result::operator<`, std::sort) -/

/-- A finalized Query 9 group (`query9.cpp` lines 29-41). -/
structure Query9Result where
  nation : String
  o_year : Int
  sum_profit : ℚ
deriving DecidableEq

/-- The comparator `Query9Result::operator<` (`query9.cpp` lines 34-41): ascending by
nation; for equal nations, descending by year (`return o_year > other.o_year`). -/
def q9lt (a b : Query9Result) : Bool :=
  if a.nation ≠ b.nation then decide (a.nation < b.nation)
  else decide (b.o_year < a.o_year)

/-- The ordering established by `std::sort` with comparator `operator<`:
consecutive output elements `a, b` satisfy `!(b < a)`. -/
def q9le (a b : Query9Result) : Prop := q9lt b a = false

instance : DecidableRel q9le := fun a b =>
  inferInstanceAs (Decidable (q9lt b a = false))

theorem q9lt_iff (a b : Query9Result) :
    q9lt a b = true ↔
      a.nation < b.nation ∨ (a.nation = b.nation ∧ b.o_year < a.o_year) := by
  unfold q9lt
  by_cases h : a.nation = b.nation
  · simp [h, lt_self_iff_false]
  · simp [h]

theorem q9le_iff (a b : Query9Result) :
    q9le a b ↔
      a.nation < b.nation ∨ (a.nation = b.nation ∧ b.o_year ≤ a.o_year) := by
  unfold q9le
  rw [Bool.eq_false_iff, Ne, q9lt_iff]
  constructor
  · intro h
    push_neg at h
    rcases lt_trichotomy a.nation b.nation with hlt | heq | hgt
    · exact Or.inl hlt
    · exact Or.inr ⟨heq, h.2 heq.symm⟩
    · exact absurd hgt h.1
  · intro h
    push_neg
    constructor
    · rcases h with hlt | ⟨heq, hy⟩
      · exact le_of_lt hlt
      · rw [heq]
    · intro heq'
      rcases h with hlt | ⟨heq, hy⟩
      · exact absurd hlt (by rw [heq']; exact lt_irrefl _)
      · exact hy

instance : IsTotal Query9Result q9le :=
  ⟨by
    intro a b
    rw [q9le_iff, q9le_iff]
    rcases lt_trichotomy a.nation b.nation with hlt | heq | hgt
    · exact Or.inl (Or.inl hlt)
    · rcases le_total b.o_year a.o_year with hy | hy
      · exact Or.inl (Or.inr ⟨heq, hy⟩)
      · exact Or.inr (Or.inr ⟨heq.symm, hy⟩)
    · exact Or.inr (Or.inl hgt)⟩

instance : IsTrans Query9Result q9le :=
  ⟨by
    intro a b c hab hbc
    rw [q9le_iff] at hab hbc ⊢
    rcases hab with h1 | ⟨e1, y1⟩ <;> rcases hbc with h2 | ⟨e2, y2⟩
    · exact Or.inl (lt_trans h1 h2)
    · exact Or.inl (e2 ▸ h1)
    · exact Or.inl (e1 ▸ h2)
    · exact Or.inr ⟨e1.trans e2, le_trans y2 y1⟩⟩

/-- The result projection: `std::sort(results.begin(), results.end())` over
`Query9Result::operator<` (`query9.cpp` lines 511-512), modelled as a sort
satisfying the same postcondition. -/
def sortResults (l : List Query9Result) : List Query9Result :=
  List.insertionSort q9le l

/-- C8: the projected sequence is totally ordered by the per-field
comparator — ascending by nation, descending by year — and is a permutation
of the finalized groups; in particular groups `("A", 2)` and `("A", 1)` are
emitted as `("A", 2)` then `("A", 1)`. -/
theorem result_projection_ordered :
    (∀ l : List Query9Result, (sortResults l).Sorted q9le ∧ (sortResults l).Perm l) ∧
    (∀ a b : Query9Result, q9le a b ∨ q9le b a) ∧
    sortResults [⟨"A", 1, 0⟩, ⟨"A", 2, 0⟩] = [⟨"A", 2, 0⟩, ⟨"A", 1, 0⟩] := by
  refine ⟨fun l => ⟨List.sorted_insertionSort q9le l, List.perm_insertionSort q9le l⟩,
    fun a b => total_of q9le a b, ?_⟩
  decide

/-! ## RVV single-chunk access pattern (C9) -/

/-- Total number of rows of a chunked column (`table->num_rows()`). -/
def totalRows {α : Type} (col : List (List α)) : Nat :=
  (col.map List.length).sum

/-- The access pattern of the RVV variants: cast `column->chunk(0)` once and
read row indices `0 .. num_rows - 1` from that single chunk
(`rvv_query4.cpp` lines 134-159, `rvv_query1.cpp` lines 479-533,
`rvv_query6.cpp` lines 707-719). -/
def rvvChunk0Reads {α : Type} (col : List (List α)) : List (Option α) :=
  (List.range (totalRows col)).map (fun i => (col.headD [])[i]?)

theorem map_getElem_range {α : Type} (l : List α) :
    (List.range l.length).map (fun i => l[i]?) = l.map some := by
  induction l with
  | nil => simp
  | cons a t ih =>
    rw [List.length_cons, List.range_succ_eq_map]
    simp only [List.map_cons, List.map_map, List.getElem?_cons_zero]
    have hcomp : ((fun i => (a :: t)[i]?) ∘ Nat.succ) = fun i : Nat => t[i]? :=
      funext fun i => List.getElem?_cons_succ
    rw [hcomp, ih]

/-- C9: in the RVV variants, every per-row access reads chunk 0 of the
column at row indices ranging over the entire table's row count; under the
precondition that the column consists of exactly one chunk, every such
access is in bounds (returns `some`) and the values read account for every
row of the table. -/
theorem rvv_chunk0_single_chunk {α : Type} (col : List (List α))
    (h : col.length = 1) :
    rvvChunk0Reads col = col.flatten.map some ∧
    ∀ i, i < totalRows col → ((col.headD [])[i]?).isSome = true := by
  rcases col with _ | ⟨c, rest⟩
  · simp at h
  · have hrest : rest = [] := by
      have : rest.length = 0 := by simpa using h
      exact List.length_eq_zero.mp this
    subst hrest
    constructor
    · unfold rvvChunk0Reads totalRows
      simp only [List.map_cons, List.map_nil, List.sum_cons, List.sum_nil,
        List.headD_cons, Nat.add_zero, List.flatten_cons, List.flatten_nil,
        List.append_nil]
      exact map_getElem_range c
    · intro i hi
      have hi' : i < c.length := by
        simpa [totalRows] using hi
      simp [List.getElem?_eq_getElem hi']

theorem rvv_chunk0_single_chunk_witness :
    (([[3, 1, 4]] : List (List Nat)).length = 1) ∧
    rvvChunk0Reads ([[3, 1, 4]] : List (List Nat)) =
      ([[3, 1, 4]] : List (List Nat)).flatten.map some :=
  ⟨rfl, (rvv_chunk0_single_chunk [[3, 1, 4]] rfl).1⟩

/-! ## Shared-scale decimal decoding in the RVV variants (C10) -/

/-- A decimal column: its declared scale and the raw 128-bit payloads. -/
structure DecimalColumn where
  scale : Nat
  raws : List Nat
deriving DecidableEq

theorem decimal128_bytes_to_double_small (raw scale : Nat) (h : raw < 2 ^ 64) :
    decimal128_bytes_to_double raw scale = (raw : ℚ) / 10 ^ scale := by
  unfold decimal128_bytes_to_double decimal128ReconstructedInt int64OfBits uint64OfBits
  rw [Nat.div_eq_of_lt h, Nat.mod_eq_of_lt h]
  norm_num

/-- Value extraction in `RunQuery6` of `rvv_query6.cpp` (lines 707-719): one
`scale_factor` is read from the declared type of the *price* column and used
to convert both `l_extendedprice` and `l_discount`. -/
def rvvQ6DecodedPairs (price discount : DecimalColumn) : List (ℚ × ℚ) :=
  List.zipWith
    (fun p d => (decimal128_bytes_to_double p price.scale,
                 decimal128_bytes_to_double d price.scale))
    price.raws discount.raws

/-- Reference decoding following the spec's data model (§3, DecimalValue):
each column's payloads decode with that column's own declared scale. -/
def specQ6DecodedPairs (price discount : DecimalColumn) : List (ℚ × ℚ) :=
  List.zipWith
    (fun p d => (decimal128_bytes_to_double p price.scale,
                 decimal128_bytes_to_double d discount.scale))
    price.raws discount.raws

/-- Value extraction in `RunQuery1RVV` of `rvv_query1.cpp` (lines 489-506):
`scale_factor` comes from the price column and converts price, discount, tax
and quantity alike. -/
def rvvQ1DecodedTuples (price discount tax quantity : DecimalColumn) :
    List (ℚ × ℚ × ℚ × ℚ) :=
  (price.raws.zip (discount.raws.zip (tax.raws.zip quantity.raws))).map
    (fun x => (decimal128_bytes_to_double x.1 price.scale,
               decimal128_bytes_to_double x.2.1 price.scale,
               decimal128_bytes_to_double x.2.2.1 price.scale,
               decimal128_bytes_to_double x.2.2.2 price.scale))

/-- Reference decoding for the Query 1 columns: each with its own scale. -/
def specQ1DecodedTuples (price discount tax quantity : DecimalColumn) :
    List (ℚ × ℚ × ℚ × ℚ) :=
  (price.raws.zip (discount.raws.zip (tax.raws.zip quantity.raws))).map
    (fun x => (decimal128_bytes_to_double x.1 price.scale,
               decimal128_bytes_to_double x.2.1 discount.scale,
               decimal128_bytes_to_double x.2.2.1 tax.scale,
               decimal128_bytes_to_double x.2.2.2 quantity.scale))

/-- C10: the RVV Query 1 and Query 6 variants decode `l_discount` (and, in
Query 1, `l_tax` and `l_quantity`) with the scale declared on
`l_extendedprice`; the decoded values equal the true column values under the
precondition that all the decimal columns involved share the same scale —
and a scale mismatch yields wrong values (raw payload 600 at true scale 3
decodes as 6 instead of 0.6 when the price scale is 2). -/
theorem rvv_shared_scale_decode (p1 d1 t1 q1 p2 d2 : DecimalColumn)
    (h1 : d1.scale = p1.scale) (h2 : t1.scale = p1.scale)
    (h3 : q1.scale = p1.scale) (h4 : d2.scale = p2.scale) :
    rvvQ1DecodedTuples p1 d1 t1 q1 = specQ1DecodedTuples p1 d1 t1 q1 ∧
    rvvQ6DecodedPairs p2 d2 = specQ6DecodedPairs p2 d2 ∧
    rvvQ6DecodedPairs ⟨2, [100000]⟩ ⟨3, [600]⟩ ≠
      specQ6DecodedPairs ⟨2, [100000]⟩ ⟨3, [600]⟩ := by
  refine ⟨?_, ?_, ?_⟩
  · unfold rvvQ1DecodedTuples specQ1DecodedTuples
    rw [h1, h2, h3]
  · unfold rvvQ6DecodedPairs specQ6DecodedPairs
    rw [h4]
  · intro heq
    have hsnd := congrArg (fun l => (l.headD (0, 0)).2) heq
    simp only [rvvQ6DecodedPairs, specQ6DecodedPairs, List.zipWith_cons_cons,
      List.zipWith_nil_right, List.headD_cons] at hsnd
    rw [decimal128_bytes_to_double_small 600 2 (by norm_num),
      decimal128_bytes_to_double_small 600 3 (by norm_num)] at hsnd
    norm_num at hsnd

theorem rvv_shared_scale_decode_witness :
    ((⟨2, [600]⟩ : DecimalColumn).scale = (⟨2, [100000]⟩ : DecimalColumn).scale) ∧
    rvvQ6DecodedPairs ⟨2, [100000]⟩ ⟨2, [600]⟩ =
      specQ6DecodedPairs ⟨2, [100000]⟩ ⟨2, [600]⟩ :=
  ⟨rfl,
    (rvv_shared_scale_decode ⟨2, [1]⟩ ⟨2, [1]⟩ ⟨2, [1]⟩ ⟨2, [1]⟩
        ⟨2, [100000]⟩ ⟨2, [600]⟩ rfl rfl rfl rfl).2.1⟩

end RVVParquet
